import Mathlib

/-!
Shallow embedding of the TiKV range-scan iterator (`store/tikv/scan.go`).

Keys and values are byte strings, modelled as `List Nat`.  The key order is
the lexicographic order on `List Nat` (the Mathlib `List.Lex (· < ·)`, the
`LinearOrder (List Nat)` instance), matching the Go `bytes.Compare` order.

The external collaborators of the Scanner (region cache, RPC sender, snapshot
point-read, visibility check, lock extraction) live outside the scanned
source file; they are modelled as an explicit environment `ScanEnv` whose
responses may depend on the fetch index, the attempt index within a fetch,
and the requested start key.  The backoff policy is modelled as a budget of
backoff units plus the list of consumed backoff categories.
-/

namespace Scan

/-- Byte-string keys, ordered lexicographically. -/
abbrev Key := List Nat

/-- Model of `pb.KvPair`: a key, a value, and an optional per-key error (conflict
marker / lock), abstracted as a numeric marker id. -/
structure KvPair where
  key : Key
  value : List Nat
  error : Option Nat
deriving DecidableEq, Repr, Inhabited

/-- The lock descriptor produced by `extractLockFromKeyErr`; only its key is
used by the scanner. -/
structure Lock where
  key : Key
deriving DecidableEq, Repr

/-- Error values the scanner can return or receive from collaborators. -/
inductive Err where
  | scannerInvalid
  | budgetExhausted
  | bodyMissing
  | notFound
  | external (n : Nat)
deriving DecidableEq, Repr

/-- A region location (`KeyLocation`): region identifier and its end key
(`[]` means the region is the last one, unbounded). -/
structure KeyLocation where
  region : Nat
  endKey : Key
deriving DecidableEq, Repr

/-- The possible outcomes of sending one scan request to a region. -/
inductive SendOutcome where
  | transportErr (e : Err)
  | regionErrFail (e : Err)
  | regionErr
  | bodyMissing
  | ok (pairs : List KvPair)
deriving Repr

/-- The outcome of one attempt of the `getData` loop: either locating the
region fails, or a request is sent to the located region. -/
inductive AttemptResult where
  | locateFail (e : Err)
  | sent (loc : KeyLocation) (out : SendOutcome)
deriving Repr

/-- Backoff categories consumed by this file; `scan.go` only ever uses
`BoRegionMiss`. -/
inductive BoCat where
  | regionMiss
deriving DecidableEq, Repr

/-- The `Backoffer`: a budget of remaining backoff units and the categories
consumed so far. -/
structure Backoffer where
  budget : Nat
  consumed : List BoCat
deriving DecidableEq, Repr

/-- The environment of external collaborators, fixed for one Scanner:
`att fi ai sk` is the outcome of attempt `ai` of the `fi`-th `getData` call
of a `Next`, for requested start key `sk`; `checkVisible` is the result of
`store.CheckVisibility` at the fixed snapshot version; `extract` is
`extractLockFromKeyErr`; `pointGet` is `snapshot.get` at the fixed version;
`budget` is the backoff budget `scannerNextMaxBackoff` in units. -/
structure ScanEnv where
  att : Nat → Nat → Key → AttemptResult
  checkVisible : Option Err
  extract : Nat → Except Err Lock
  pointGet : Key → Except Err (List Nat)
  budget : Nat

/-- The `Scanner` struct.  The `snapshot` pointer is represented by the
environment, which already fixes the read version and read options. -/
structure Scanner where
  batchSize : Nat
  valid : Bool
  cache : List KvPair
  idx : Nat
  nextStartKey : Key
  eof : Bool
deriving DecidableEq, Repr

/-- Modelled from the spec: the default page-size constant (`scanBatchSize`,
defined outside the scanned file); the spec requires only that it be > 1. -/
def scanBatchSize : Nat := 256

/-- Accessor `Scanner.Valid`. -/
def Scanner.Valid (s : Scanner) : Bool := s.valid

/-- Accessor `Scanner.Key`: the current key, or nil (here `[]`) when invalid. -/
def scanKey (s : Scanner) : Key :=
  if s.valid then (s.cache.getD s.idx default).key else []

/-- Accessor `Scanner.Value`: the current value, or nil (here `[]`) when invalid. -/
def scanValue (s : Scanner) : List Nat :=
  if s.valid then (s.cache.getD s.idx default).value else []

/-- Operation `Scanner.Close`: mark the scanner invalid. -/
def close (s : Scanner) : Scanner := {s with valid := false}

/-- Model of `resolveCurrentLock`: if the current pair carries a key error, point-read
its key through the snapshot, overwrite the value in place and clear the
error; a point-read failure is propagated with the state unchanged. -/
def resolveCurrentLock (env : ScanEnv) (s : Scanner) : Option Err × Scanner :=
  let current := s.cache.getD s.idx default
  if current.error = none then (none, s)
  else
    match env.pointGet current.key with
    | .error e => (some e, s)
    | .ok v =>
      (none, {s with cache := s.cache.set s.idx {current with error := none, value := v}})

/-- The per-pair loop of `getData` (lines 197–206): for every pair carrying a
key error, extract the lock and overwrite the key of the pair with the key of the lock;
the first extraction failure aborts the fetch. -/
def rewritePairs (extract : Nat → Except Err Lock) : List KvPair → Except Err (List KvPair)
  | [] => .ok []
  | p :: ps =>
    match p.error with
    | none => (rewritePairs extract ps).map (p :: ·)
    | some ke =>
      match extract ke with
      | .error e => .error e
      | .ok l => (rewritePairs extract ps).map ({p with key := l.key} :: ·)

/-- Lines 208–225 of `getData`: install the fetched pairs as the new cache,
reset the cursor, and compute the continuation (`nextStartKey` / `eof`). -/
def installPage (s : Scanner) (loc : KeyLocation) (qs : List KvPair) : Scanner :=
  let s1 := {s with cache := qs, idx := 0}
  if qs.length < s1.batchSize then
    {s1 with nextStartKey := loc.endKey,
             eof := if loc.endKey = [] then true else s1.eof}
  else
    {s1 with nextStartKey := (qs.getLastD default).key ++ [0]}

/-- The retry loop of `getData`: attempt `attempt` with `budget` backoff
units remaining and `consumed` categories spent.  A region error consumes one
`BoCat.regionMiss` unit and retries (re-locating the region); an exhausted
budget, a locate failure, a transport failure, a missing body, a failed
visibility check or a failed lock extraction abort with the scanner state
unchanged. -/
def getDataLoop (env : ScanEnv) (fi : Nat) (s : Scanner) (attempt budget : Nat)
    (consumed : List BoCat) : Option Err × Scanner × Backoffer :=
  match env.att fi attempt s.nextStartKey with
  | .locateFail e => (some e, s, ⟨budget, consumed⟩)
  | .sent loc out =>
    match out with
    | .transportErr e => (some e, s, ⟨budget, consumed⟩)
    | .regionErrFail e => (some e, s, ⟨budget, consumed⟩)
    | .regionErr =>
      match budget with
      | 0 => (some .budgetExhausted, s, ⟨0, consumed⟩)
      | b + 1 => getDataLoop env fi s (attempt + 1) b (consumed ++ [.regionMiss])
    | .bodyMissing => (some .bodyMissing, s, ⟨budget, consumed⟩)
    | .ok pairs =>
      match env.checkVisible with
      | some e => (some e, s, ⟨budget, consumed⟩)
      | none =>
        match rewritePairs env.extract pairs with
        | .error e => (some e, s, ⟨budget, consumed⟩)
        | .ok qs => (none, installPage s loc qs, ⟨budget, consumed⟩)

/-- Model of `getData`: fetch the next page starting at `s.nextStartKey`. -/
def getData (env : ScanEnv) (fi : Nat) (s : Scanner) (bo : Backoffer) :
    Option Err × Scanner × Backoffer :=
  getDataLoop env fi s 0 bo.budget bo.consumed

/-- The body of the `for` loop of `Next`, with explicit fuel (`none` = fuel ran
out before the loop returned).  `fi` counts the `getData` calls made by this
`Next`; `bo` is the backoffer shared by the whole `Next` call. -/
def nextLoop (env : ScanEnv) (fuel fi : Nat) (bo : Backoffer) (s : Scanner) :
    Option (Option Err × Scanner) :=
  match fuel with
  | 0 => none
  | fuel' + 1 =>
    let s1 : Scanner := {s with idx := s.idx + 1}
    if s1.cache.length ≤ s1.idx then
      if s1.eof then some (none, close s1)
      else
        match getData env fi s1 bo with
        | (some e, s2, _) => some (some e, close s2)
        | (none, s2, bo') =>
          if s2.cache.length ≤ s2.idx then
            nextLoop env fuel' (fi + 1) bo' s2
          else
            match resolveCurrentLock env s2 with
            | (some e, s3) => some (some e, close s3)
            | (none, s3) =>
              if (scanValue s3).length = 0 then nextLoop env fuel' (fi + 1) bo' s3
              else some (none, s3)
    else
      match resolveCurrentLock env s1 with
      | (some e, s3) => some (some e, close s3)
      | (none, s3) =>
        if (scanValue s3).length = 0 then nextLoop env fuel' fi bo s3
        else some (none, s3)

/-- Model of `Scanner.Next`: allocate a fresh backoffer, fail if the scanner is
already invalid, otherwise run the loop. -/
def next (env : ScanEnv) (fuel : Nat) (s : Scanner) : Option (Option Err × Scanner) :=
  if s.valid = false then some (some .scannerInvalid, s)
  else nextLoop env fuel 0 ⟨env.budget, []⟩ s

/-- The scanner as built by `newScanner` before its priming `Next`. -/
def initScanner (startKey : Key) (batchSize : Nat) : Scanner :=
  { batchSize := if batchSize ≤ 1 then scanBatchSize else batchSize,
    valid := true, cache := [], idx := 0, nextStartKey := startKey, eof := false }

/-- Model of `newScanner`: normalize the batch size, prime with one `Next`, and treat
a not-found failure of that `Next` as success. -/
def newScanner (env : ScanEnv) (fuel : Nat) (startKey : Key) (batchSize : Nat) :
    Option (Scanner × Option Err) :=
  (next env fuel (initScanner startKey batchSize)).map fun r =>
    match r with
    | (some e, s') => if e = .notFound then (s', none) else (s', some e)
    | (none, s') => (s', none)

/-- Iterate `n` successful `Next` calls (`none` if any call errors or runs
out of fuel). -/
def nexts (env : ScanEnv) (fuel : Nat) (s : Scanner) : Nat → Option Scanner
  | 0 => some s
  | n + 1 =>
    match next env fuel s with
    | some (none, s') => nexts env fuel s' n
    | _ => none

/-- The keys of a pair list, in order. -/
def keysOf (l : List KvPair) : List Key := l.map KvPair.key

/-- A well-formed scan response for requested start key `sk` from the region
at `loc`: keys strictly sorted, at or after `sk`, and (when the region is
bounded) strictly below the region end key, which itself lies strictly
after `sk`.  This is the contract of the external store (§6 of the spec). -/
def WFResp (sk : Key) (loc : KeyLocation) (pairs : List KvPair) : Prop :=
  List.Pairwise (· < ·) (keysOf pairs) ∧
  (∀ k ∈ keysOf pairs, sk ≤ k) ∧
  (loc.endKey ≠ [] → (∀ k ∈ keysOf pairs, k < loc.endKey) ∧ sk < loc.endKey)

/-- Every lock extracted from a conflict-marked pair carries the own key of that pair
(the condition §9 of the spec asks for). -/
def LockKeysMatch (env : ScanEnv) (pairs : List KvPair) : Prop :=
  ∀ p ∈ pairs, ∀ ke l, p.error = some ke → env.extract ke = Except.ok l → l.key = p.key

/-- A well-formed environment: every valid scan response satisfies the store
contract and its lock keys match the scanned keys. -/
def WFEnv (env : ScanEnv) : Prop :=
  ∀ fi ai sk loc pairs, env.att fi ai sk = .sent loc (.ok pairs) →
    WFResp sk loc pairs ∧ LockKeysMatch env pairs

/-- The scanner state invariant between `Next` calls: positive batch size,
strictly sorted cache, and (while more data may remain) all cached keys
strictly below the start key of the next fetch. -/
def ScanInv (s : Scanner) : Prop :=
  1 ≤ s.batchSize ∧
  List.Pairwise (· < ·) (keysOf s.cache) ∧
  (s.eof = false → ∀ k ∈ keysOf s.cache, k < s.nextStartKey)

/-- A scanner positioned on a returned entry. -/
def ScanPosInv (s : Scanner) : Prop :=
  s.valid = true ∧ s.idx < s.cache.length ∧ ScanInv s

/-- Predicate `optLt lb k`: `k` is above the optional lower bound `lb`. -/
def optLt (lb : Option Key) (k : Key) : Prop := ∀ l, lb = some l → l < k

/-- The invariant at each entry of the `nextLoop` recursion, relative to the
lower bound `lb` (the key last returned to the caller, if any). -/
def LoopInv (lb : Option Key) (s : Scanner) : Prop :=
  s.valid = true ∧ ScanInv s ∧
  (s.eof = false → optLt lb s.nextStartKey) ∧
  (∀ j, s.idx < j → ∀ hj : j < s.cache.length, optLt lb (s.cache.get ⟨j, hj⟩).key)

/-! ### Key-order helpers -/

theorem key_lt_append_zero (l : Key) : l < l ++ [0] := by
  have h := List.Lex.append_left (· < · : Nat → Nat → Prop)
    (List.Lex.nil : List.Lex (· < ·) [] [0]) l
  simpa using h

theorem set_getD_self {α : Type} : ∀ (l : List α) (i : Nat) (d : α),
    l.set i (l.getD i d) = l
  | [], _, _ => rfl
  | _ :: _, 0, _ => by simp [List.getD]
  | a :: t, n + 1, d => by
    have h := set_getD_self t n d
    simp only [List.getD] at h ⊢
    simpa using h

theorem le_getLastD_of_sorted :
    ∀ (l : List Key) (d : Key), List.Pairwise (· < ·) l →
      ∀ k ∈ l, k ≤ l.getLastD d := by
  intro l
  induction l with
  | nil => intro d _ k hk; cases hk
  | cons a t ih =>
    intro d h k hk
    rw [List.getLastD_cons]
    rcases List.mem_cons.mp hk with rfl | hk'
    · cases t with
      | nil => simp [List.getLastD]
      | cons b t' =>
        rw [List.getLastD_cons]
        exact le_of_lt (List.rel_of_pairwise_cons h (List.getLastD_mem_cons t' b))
    · exact ih a h.of_cons k hk'

theorem getD_map {α β : Type} (f : α → β) (l : List α) (n : Nat) (d : α) :
    (l.map f).getD n (f d) = f (l.getD n d) := by
  simp only [List.getD_eq_getElem?_getD, List.getElem?_map]
  cases l[n]? <;> simp

theorem getLastD_map {α β : Type} (f : α → β) :
    ∀ (l : List α) (d : α), (l.map f).getLastD (f d) = f (l.getLastD d)
  | [], _ => rfl
  | a :: t, d => by
    simp only [List.map_cons, List.getLastD_cons]
    exact getLastD_map f t a

theorem getLastD_mem {α : Type} (l : List α) (d : α) (h : l ≠ []) :
    l.getLastD d ∈ l := by
  cases l with
  | nil => exact absurd rfl h
  | cons a t =>
    rw [List.getLastD_cons]
    exact List.getLastD_mem_cons t a

/-! ### `rewritePairs` lemmas -/

theorem rewritePairs_ok_spec (extract : Nat → Except Err Lock) :
    ∀ (ps qs : List KvPair), rewritePairs extract ps = .ok qs →
      qs.length = ps.length ∧
      ∀ i (hi : i < ps.length) (hq : i < qs.length),
        (match (ps.get ⟨i, hi⟩).error with
         | some ke => ∃ l, extract ke = .ok l ∧
             qs.get ⟨i, hq⟩ = {ps.get ⟨i, hi⟩ with key := l.key}
         | none => qs.get ⟨i, hq⟩ = ps.get ⟨i, hi⟩) := by
  intro ps
  induction ps with
  | nil =>
    intro qs h
    simp only [rewritePairs] at h
    cases h
    exact ⟨rfl, fun i hi => absurd hi (Nat.not_lt_zero i)⟩
  | cons p ps' ih =>
    intro qs h
    obtain ⟨pk, pv, pe⟩ := p
    cases pe with
    | none =>
      simp only [rewritePairs] at h
      cases hr : rewritePairs extract ps' with
      | error e => rw [hr] at h; cases h
      | ok qs' =>
        rw [hr] at h
        cases h
        obtain ⟨hlen, hspec⟩ := ih qs' hr
        refine ⟨by simp [hlen], ?_⟩
        intro i hi hq
        cases i with
        | zero => simp
        | succ n =>
          have := hspec n (Nat.lt_of_succ_lt_succ hi) (Nat.lt_of_succ_lt_succ hq)
          simpa using this
    | some ke =>
      simp only [rewritePairs] at h
      cases hex : extract ke with
      | error e => rw [hex] at h; cases h
      | ok l =>
        rw [hex] at h
        cases hr : rewritePairs extract ps' with
        | error e => rw [hr] at h; cases h
        | ok qs' =>
          rw [hr] at h
          cases h
          obtain ⟨hlen, hspec⟩ := ih qs' hr
          refine ⟨by simp [hlen], ?_⟩
          intro i hi hq
          cases i with
          | zero => exact ⟨l, hex, rfl⟩
          | succ n =>
            have := hspec n (Nat.lt_of_succ_lt_succ hi) (Nat.lt_of_succ_lt_succ hq)
            simpa using this

theorem rewritePairs_keys (env : ScanEnv) :
    ∀ (ps qs : List KvPair), LockKeysMatch env ps →
      rewritePairs env.extract ps = .ok qs → keysOf qs = keysOf ps := by
  intro ps
  induction ps with
  | nil =>
    intro qs _ h
    simp only [rewritePairs] at h
    cases h
    rfl
  | cons p ps' ih =>
    intro qs hm h
    obtain ⟨pk, pv, pe⟩ := p
    cases pe with
    | none =>
      simp only [rewritePairs] at h
      cases hr : rewritePairs env.extract ps' with
      | error e => rw [hr] at h; cases h
      | ok qs' =>
        rw [hr] at h
        cases h
        have hm' : LockKeysMatch env ps' := fun q hq => hm q (List.mem_cons.mpr (Or.inr hq))
        simp only [keysOf, List.map_cons]
        exact congrArg (pk :: ·) (ih qs' hm' hr)
    | some ke =>
      simp only [rewritePairs] at h
      cases hex : env.extract ke with
      | error e => rw [hex] at h; cases h
      | ok l =>
        rw [hex] at h
        cases hr : rewritePairs env.extract ps' with
        | error e => rw [hr] at h; cases h
        | ok qs' =>
          rw [hr] at h
          cases h
          have hm' : LockKeysMatch env ps' := fun q hq => hm q (List.mem_cons.mpr (Or.inr hq))
          have hkey : l.key = pk :=
            hm ⟨pk, pv, some ke⟩ (List.mem_cons_self _ _) ke l rfl hex
          simp only [keysOf, List.map_cons]
          rw [hkey]
          exact congrArg (pk :: ·) (ih qs' hm' hr)

/-! ### `resolveCurrentLock` lemmas -/

theorem resolveCurrentLock_some (env : ScanEnv) (s : Scanner) (e : Err) (s' : Scanner)
    (h : resolveCurrentLock env s = (some e, s')) :
    s' = s ∧ env.pointGet (s.cache.getD s.idx default).key = .error e := by
  simp only [resolveCurrentLock] at h
  by_cases hc : (s.cache.getD s.idx default).error = none
  · rw [if_pos hc] at h; cases h
  · rw [if_neg hc] at h
    cases hpg : env.pointGet (s.cache.getD s.idx default).key with
    | error e' => rw [hpg] at h; cases h; exact ⟨rfl, rfl⟩
    | ok v => rw [hpg] at h; cases h

theorem resolveCurrentLock_none (env : ScanEnv) (s : Scanner) (s' : Scanner)
    (h : resolveCurrentLock env s = (none, s')) :
    s'.valid = s.valid ∧ s'.idx = s.idx ∧ s'.nextStartKey = s.nextStartKey ∧
    s'.eof = s.eof ∧ s'.batchSize = s.batchSize ∧ keysOf s'.cache = keysOf s.cache := by
  simp only [resolveCurrentLock] at h
  by_cases hc : (s.cache.getD s.idx default).error = none
  · rw [if_pos hc] at h
    cases h
    exact ⟨rfl, rfl, rfl, rfl, rfl, rfl⟩
  · rw [if_neg hc] at h
    cases hpg : env.pointGet (s.cache.getD s.idx default).key with
    | error e' => rw [hpg] at h; cases h
    | ok v =>
      rw [hpg] at h
      cases h
      refine ⟨rfl, rfl, rfl, rfl, rfl, ?_⟩
      simp only [keysOf, List.map_set]
      have hk : ({ s.cache.getD s.idx default with error := none, value := v } : KvPair).key
          = (s.cache.getD s.idx default).key := rfl
      rw [hk, ← getD_map KvPair.key s.cache s.idx default, set_getD_self]

/-! ### `getData` lemmas -/

theorem getDataLoop_err (env : ScanEnv) (fi : Nat) (s : Scanner) :
    ∀ (b a : Nat) (cs : List BoCat) (e : Err) (s' : Scanner) (bo' : Backoffer),
      getDataLoop env fi s a b cs = (some e, s', bo') → s' = s := by
  intro b
  induction b with
  | zero =>
    intro a cs e s' bo' h
    rw [getDataLoop] at h
    split at h
    · cases h; rfl
    · split at h
      · cases h; rfl
      · cases h; rfl
      · cases h; rfl
      · cases h; rfl
      · split at h
        · cases h; rfl
        · split at h
          · cases h; rfl
          · cases h
  | succ b ih =>
    intro a cs e s' bo' h
    rw [getDataLoop] at h
    split at h
    · cases h; rfl
    · split at h
      · cases h; rfl
      · cases h; rfl
      · exact ih _ _ _ _ _ h
      · cases h; rfl
      · split at h
        · cases h; rfl
        · split at h
          · cases h; rfl
          · cases h

theorem installPage_facts (s : Scanner) (loc : KeyLocation) (qs : List KvPair)
    (hb : 1 ≤ s.batchSize)
    (hsort : List.Pairwise (· < ·) (keysOf qs))
    (hge : ∀ k ∈ keysOf qs, s.nextStartKey ≤ k)
    (hend : loc.endKey ≠ [] → (∀ k ∈ keysOf qs, k < loc.endKey) ∧
      s.nextStartKey < loc.endKey) :
    (installPage s loc qs).valid = s.valid ∧
    (installPage s loc qs).batchSize = s.batchSize ∧
    (installPage s loc qs).idx = 0 ∧
    (installPage s loc qs).cache = qs ∧
    ((installPage s loc qs).eof = false →
      (∀ k ∈ keysOf qs, k < (installPage s loc qs).nextStartKey) ∧
      s.nextStartKey < (installPage s loc qs).nextStartKey) := by
  by_cases hlt : qs.length < s.batchSize
  · have e1 : installPage s loc qs =
        {s with cache := qs, idx := 0, nextStartKey := loc.endKey,
                eof := if loc.endKey = [] then true else s.eof} := by
      simp [installPage, hlt]
    rw [e1]
    refine ⟨rfl, rfl, rfl, rfl, ?_⟩
    intro heof
    by_cases hek : loc.endKey = []
    · simp [hek] at heof
    · exact hend hek
  · have e2 : installPage s loc qs =
        {s with cache := qs, idx := 0,
                nextStartKey := (qs.getLastD default).key ++ [0]} := by
      simp [installPage, hlt]
    rw [e2]
    refine ⟨rfl, rfl, rfl, rfl, ?_⟩
    intro _
    have hlen : 1 ≤ qs.length := le_trans hb (Nat.le_of_not_lt hlt)
    have hne : qs ≠ [] := List.ne_nil_of_length_pos hlen
    have hlastkey : (keysOf qs).getLastD ((default : KvPair).key)
        = (qs.getLastD default).key := getLastD_map KvPair.key qs default
    have hle_last : ∀ k ∈ keysOf qs, k ≤ (qs.getLastD default).key := by
      intro k hk
      rw [← hlastkey]
      exact le_getLastD_of_sorted (keysOf qs) _ hsort k hk
    have happ : (qs.getLastD default).key < (qs.getLastD default).key ++ [0] :=
      key_lt_append_zero _
    refine ⟨fun k hk => lt_of_le_of_lt (hle_last k hk) happ, ?_⟩
    have hmem : (qs.getLastD default).key ∈ keysOf qs := by
      exact List.mem_map.mpr ⟨qs.getLastD default, getLastD_mem qs default hne, rfl⟩
    exact lt_of_le_of_lt (hge _ hmem) happ

theorem getDataLoop_ok (env : ScanEnv) (fi : Nat) (s : Scanner)
    (hwf : WFEnv env) (hb : 1 ≤ s.batchSize) :
    ∀ (b a : Nat) (cs : List BoCat) (s' : Scanner) (bo' : Backoffer),
      getDataLoop env fi s a b cs = (none, s', bo') →
      s'.valid = s.valid ∧ s'.batchSize = s.batchSize ∧ s'.idx = 0 ∧
      List.Pairwise (· < ·) (keysOf s'.cache) ∧
      (∀ k ∈ keysOf s'.cache, s.nextStartKey ≤ k) ∧
      (s'.eof = false →
        (∀ k ∈ keysOf s'.cache, k < s'.nextStartKey) ∧
        s.nextStartKey < s'.nextStartKey) := by
  intro b
  induction b with
  | zero =>
    intro a cs s' bo' h
    rw [getDataLoop] at h
    cases hatt : env.att fi a s.nextStartKey with
    | locateFail e => rw [hatt] at h; simp only [] at h; cases h
    | sent loc out =>
      rw [hatt] at h
      cases out with
      | transportErr e => simp only [] at h; cases h
      | regionErrFail e => simp only [] at h; cases h
      | regionErr => simp only [] at h; cases h
      | bodyMissing => simp only [] at h; cases h
      | ok pairs =>
        simp only [] at h
        cases hvis : env.checkVisible with
        | some e => rw [hvis] at h; simp only [] at h; cases h
        | none =>
          rw [hvis] at h
          simp only [] at h
          cases hrw : rewritePairs env.extract pairs with
          | error e => rw [hrw] at h; simp only [] at h; cases h
          | ok qs =>
            rw [hrw] at h
            simp only [] at h
            cases h
            obtain ⟨hresp, hlock⟩ := hwf fi a s.nextStartKey loc pairs hatt
            have hkeys : keysOf qs = keysOf pairs := rewritePairs_keys env pairs qs hlock hrw
            obtain ⟨hs1, hs2, hs3⟩ := hresp
            have hf := installPage_facts s loc qs hb (hkeys ▸ hs1) (hkeys ▸ hs2)
              (fun hne => hkeys ▸ hs3 hne)
            exact ⟨hf.1, hf.2.1, hf.2.2.1, by rw [hf.2.2.2.1]; exact hkeys ▸ hs1,
              by rw [hf.2.2.2.1]; exact hkeys ▸ hs2,
              fun heof => by rw [hf.2.2.2.1]; exact hf.2.2.2.2 heof⟩
  | succ b ih =>
    intro a cs s' bo' h
    rw [getDataLoop] at h
    cases hatt : env.att fi a s.nextStartKey with
    | locateFail e => rw [hatt] at h; simp only [] at h; cases h
    | sent loc out =>
      rw [hatt] at h
      cases out with
      | transportErr e => simp only [] at h; cases h
      | regionErrFail e => simp only [] at h; cases h
      | regionErr =>
        simp only [] at h
        exact ih (a + 1) (cs ++ [.regionMiss]) s' bo' h
      | bodyMissing => simp only [] at h; cases h
      | ok pairs =>
        simp only [] at h
        cases hvis : env.checkVisible with
        | some e => rw [hvis] at h; simp only [] at h; cases h
        | none =>
          rw [hvis] at h
          simp only [] at h
          cases hrw : rewritePairs env.extract pairs with
          | error e => rw [hrw] at h; simp only [] at h; cases h
          | ok qs =>
            rw [hrw] at h
            simp only [] at h
            cases h
            obtain ⟨hresp, hlock⟩ := hwf fi a s.nextStartKey loc pairs hatt
            have hkeys : keysOf qs = keysOf pairs := rewritePairs_keys env pairs qs hlock hrw
            obtain ⟨hs1, hs2, hs3⟩ := hresp
            have hf := installPage_facts s loc qs hb (hkeys ▸ hs1) (hkeys ▸ hs2)
              (fun hne => hkeys ▸ hs3 hne)
            exact ⟨hf.1, hf.2.1, hf.2.2.1, by rw [hf.2.2.2.1]; exact hkeys ▸ hs1,
              by rw [hf.2.2.2.1]; exact hkeys ▸ hs2,
              fun heof => by rw [hf.2.2.2.1]; exact hf.2.2.2.2 heof⟩

theorem getD_mem {α : Type} (l : List α) (i : Nat) (d : α) (h : i < l.length) :
    l.getD i d ∈ l := by
  rw [List.getD_eq_getElem?_getD, List.getElem?_eq_getElem h]
  exact List.getElem_mem h

theorem getD_eq_get {α : Type} (l : List α) (i : Nat) (d : α) (h : i < l.length) :
    l.getD i d = l.get ⟨i, h⟩ := by
  rw [List.getD_eq_getElem?_getD, List.getElem?_eq_getElem h]
  rfl

theorem keysOf_length (l : List KvPair) : (keysOf l).length = l.length := by
  simp [keysOf]

theorem keysOf_get (l : List KvPair) (j : Nat) (hj : j < l.length)
    (hj' : j < (keysOf l).length) :
    (keysOf l).get ⟨j, hj'⟩ = (l.get ⟨j, hj⟩).key := by
  simp [keysOf]

theorem keysOf_ext_get {l l' : List KvPair} (h : keysOf l = keysOf l')
    (j : Nat) (hj : j < l.length) (hj' : j < l'.length) :
    (l.get ⟨j, hj⟩).key = (l'.get ⟨j, hj'⟩).key := by
  have h1 : j < (keysOf l).length := by rw [keysOf_length]; exact hj
  have h2 : j < (keysOf l').length := by rw [keysOf_length]; exact hj'
  have e : (keysOf l)[j]? = (keysOf l')[j]? := by rw [h]
  rw [List.getElem?_eq_getElem h1, List.getElem?_eq_getElem h2] at e
  have e' := Option.some.inj e
  have e1 := keysOf_get l j hj h1
  have e2 := keysOf_get l' j hj' h2
  rw [List.get_eq_getElem] at e1 e2
  rw [← e1, ← e2]
  exact e'

theorem keysOf_length_eq {l l' : List KvPair} (h : keysOf l = keysOf l') :
    l.length = l'.length := by
  have := congrArg List.length h
  simpa [keysOf] using this

theorem key_getD_mem (l : List KvPair) (i : Nat) (h : i < l.length) :
    (l.getD i default).key ∈ keysOf l :=
  List.mem_map.mpr ⟨l.getD i default, getD_mem l i default h, rfl⟩

theorem get_key_mem (l : List KvPair) (j : Nat) (hj : j < l.length) :
    (l.get ⟨j, hj⟩).key ∈ keysOf l :=
  List.mem_map.mpr ⟨l.get ⟨j, hj⟩, List.get_mem l j hj, rfl⟩

/-! ### `nextLoop` lemmas -/

theorem nextLoop_basic (env : ScanEnv) :
    ∀ (fuel fi : Nat) (bo : Backoffer) (s : Scanner) (res : Option Err) (s' : Scanner),
      nextLoop env fuel fi bo s = some (res, s') →
      (∀ e, res = some e → s'.valid = false) ∧
      (res = none → s'.valid = false ∨ (scanValue s').length ≠ 0) := by
  intro fuel
  induction fuel with
  | zero => intro fi bo s res s' h; rw [nextLoop] at h; cases h
  | succ fuel' ih =>
    intro fi bo s res s' h
    rw [nextLoop] at h
    simp only [] at h
    by_cases hc : ({s with idx := s.idx + 1} : Scanner).cache.length ≤
        ({s with idx := s.idx + 1} : Scanner).idx
    · rw [if_pos hc] at h
      by_cases heof : ({s with idx := s.idx + 1} : Scanner).eof = true
      · rw [if_pos heof] at h
        cases h
        exact ⟨fun e he => (nomatch he), fun _ => Or.inl rfl⟩
      · rw [if_neg heof] at h
        rcases hgd : getData env fi {s with idx := s.idx + 1} bo with ⟨r, s2, bo2⟩
        rw [hgd] at h
        cases r with
        | some e =>
          simp only [] at h
          cases h
          exact ⟨fun _ _ => rfl, fun hn => (nomatch hn)⟩
        | none =>
          simp only [] at h
          by_cases hc2 : s2.cache.length ≤ s2.idx
          · rw [if_pos hc2] at h
            exact ih _ _ _ _ _ h
          · rw [if_neg hc2] at h
            rcases hrc : resolveCurrentLock env s2 with ⟨r3, s3⟩
            rw [hrc] at h
            cases r3 with
            | some e =>
              simp only [] at h
              cases h
              exact ⟨fun _ _ => rfl, fun hn => (nomatch hn)⟩
            | none =>
              simp only [] at h
              by_cases hv : (scanValue s3).length = 0
              · rw [if_pos hv] at h
                exact ih _ _ _ _ _ h
              · rw [if_neg hv] at h
                cases h
                exact ⟨fun e he => (nomatch he), fun _ => Or.inr hv⟩
    · rw [if_neg hc] at h
      rcases hrc : resolveCurrentLock env {s with idx := s.idx + 1} with ⟨r3, s3⟩
      rw [hrc] at h
      cases r3 with
      | some e =>
        simp only [] at h
        cases h
        exact ⟨fun _ _ => rfl, fun hn => (nomatch hn)⟩
      | none =>
        simp only [] at h
        by_cases hv : (scanValue s3).length = 0
        · rw [if_pos hv] at h
          exact ih _ _ _ _ _ h
        · rw [if_neg hv] at h
          cases h
          exact ⟨fun e he => (nomatch he), fun _ => Or.inr hv⟩


/-- Core soundness of one `Next` loop run: starting from a state satisfying
the loop invariant for lower bound `lb`, a successful run that leaves the
scanner valid lands on a positioned state whose current key is above `lb`. -/
theorem nextLoop_mono (env : ScanEnv) (hwf : WFEnv env) :
    ∀ (fuel fi : Nat) (bo : Backoffer) (s : Scanner) (lb : Option Key)
      (res : Option Err) (s' : Scanner),
      LoopInv lb s → nextLoop env fuel fi bo s = some (res, s') →
      res = none → s'.valid = true →
      ScanPosInv s' ∧ optLt lb (scanKey s') := by
  intro fuel
  induction fuel with
  | zero => intro fi bo s lb res s' _ h _ _; rw [nextLoop] at h; cases h
  | succ fuel' ih =>
    intro fi bo s lb res s' hinv h hres hval
    obtain ⟨hvalid, ⟨hbatch, hsort, hbound⟩, hlbns, habove⟩ := hinv
    rw [nextLoop] at h
    simp only [] at h
    by_cases hc : ({s with idx := s.idx + 1} : Scanner).cache.length ≤
        ({s with idx := s.idx + 1} : Scanner).idx
    · rw [if_pos hc] at h
      by_cases heof : ({s with idx := s.idx + 1} : Scanner).eof = true
      · rw [if_pos heof] at h
        cases h
        simp [close] at hval
      · rw [if_neg heof] at h
        have heof0 : s.eof = false := by simpa using heof
        rcases hgd : getData env fi {s with idx := s.idx + 1} bo with ⟨r, s2, bo2⟩
        rw [hgd] at h
        cases r with
        | some e => simp only [] at h; cases h; exact (nomatch hres)
        | none =>
          simp only [] at h
          rw [getData] at hgd
          have hgo := getDataLoop_ok env fi {s with idx := s.idx + 1} hwf hbatch
            bo.budget 0 bo.consumed s2 bo2 hgd
          obtain ⟨g1, g2, g3, g4, g5, g6⟩ := hgo
          have hlb2 : optLt lb s.nextStartKey := hlbns heof0
          by_cases hc2 : s2.cache.length ≤ s2.idx
          · rw [if_pos hc2] at h
            refine ih (fi + 1) bo2 s2 lb res s' ⟨?_, ⟨?_, ?_, ?_⟩, ?_, ?_⟩ h hres hval
            · rw [g1]; exact hvalid
            · rw [g2]; exact hbatch
            · exact g4
            · intro he; exact (g6 he).1
            · intro he l hl; exact lt_trans (hlb2 l hl) ((g6 he).2)
            · intro j hj hjl
              exact absurd (Nat.lt_trans hj (Nat.lt_of_lt_of_le hjl hc2))
                (Nat.lt_irrefl _)
          · rw [if_neg hc2] at h
            have hlen2 : s2.idx < s2.cache.length := Nat.lt_of_not_le hc2
            rcases hrc : resolveCurrentLock env s2 with ⟨r3, s3⟩
            rw [hrc] at h
            cases r3 with
            | some e => simp only [] at h; cases h; exact (nomatch hres)
            | none =>
              simp only [] at h
              obtain ⟨r1, r2, rns, r4, r5, r6⟩ := resolveCurrentLock_none env s2 s3 hrc
              have hlen3 : s3.cache.length = s2.cache.length := keysOf_length_eq r6
              have hall : ∀ k ∈ keysOf s2.cache, optLt lb k := by
                intro k hk l hl
                exact lt_of_lt_of_le (hlb2 l hl) (g5 k hk)
              by_cases hv : (scanValue s3).length = 0
              · rw [if_pos hv] at h
                refine ih (fi + 1) bo2 s3 lb res s' ⟨?_, ⟨?_, ?_, ?_⟩, ?_, ?_⟩ h hres hval
                · rw [r1, g1]; exact hvalid
                · rw [r5, g2]; exact hbatch
                · rw [r6]; exact g4
                · rw [r4, rns, r6]; intro he; exact (g6 he).1
                · rw [r4, rns]; intro he l hl; exact lt_trans (hlb2 l hl) ((g6 he).2)
                · intro j hj hjl
                  have hjl2 : j < s2.cache.length := by rw [← hlen3]; exact hjl
                  rw [keysOf_ext_get r6 j hjl hjl2]
                  exact hall _ (get_key_mem s2.cache j hjl2)
              · rw [if_neg hv] at h
                cases h
                have hidx3 : s'.idx < s'.cache.length := by
                  rw [r2, g3, hlen3]
                  rw [g3] at hlen2
                  exact hlen2
                refine ⟨⟨hval, hidx3, ?_, ?_, ?_⟩, ?_⟩
                · rw [r5, g2]; exact hbatch
                · rw [r6]; exact g4
                · rw [r4, rns, r6]; intro he; exact (g6 he).1
                · have hk3 : scanKey s' = (s'.cache.getD s'.idx default).key := by
                    simp [scanKey, hval]
                  rw [hk3, getD_eq_get s'.cache s'.idx default hidx3]
                  have hjl2 : s'.idx < s2.cache.length := by rw [← hlen3]; exact hidx3
                  rw [keysOf_ext_get r6 s'.idx hidx3 hjl2]
                  exact hall _ (get_key_mem s2.cache s'.idx hjl2)
    · rw [if_neg hc] at h
      have hidx1 : s.idx + 1 < s.cache.length := Nat.lt_of_not_le hc
      rcases hrc : resolveCurrentLock env {s with idx := s.idx + 1} with ⟨r3, s3⟩
      rw [hrc] at h
      cases r3 with
      | some e => simp only [] at h; cases h; exact (nomatch hres)
      | none =>
        simp only [] at h
        obtain ⟨r1, r2, rns, r4, r5, r6⟩ :=
          resolveCurrentLock_none env {s with idx := s.idx + 1} s3 hrc
        have hproj : ({s with idx := s.idx + 1} : Scanner).idx = s.idx + 1 := rfl
        rw [hproj] at r2
        have hlen3 : s3.cache.length = s.cache.length := keysOf_length_eq r6
        by_cases hv : (scanValue s3).length = 0
        · rw [if_pos hv] at h
          refine ih fi bo s3 lb res s' ⟨?_, ⟨?_, ?_, ?_⟩, ?_, ?_⟩ h hres hval
          · rw [r1]; exact hvalid
          · rw [r5]; exact hbatch
          · rw [r6]; exact hsort
          · rw [r4, rns, r6]; exact hbound
          · rw [r4, rns]; exact hlbns
          · intro j hj hjl
            have hjl2 : j < s.cache.length := by rw [← hlen3]; exact hjl
            have hj2 : s.idx < j := by rw [r2] at hj; exact Nat.lt_of_succ_lt hj
            rw [keysOf_ext_get r6 j hjl hjl2]
            exact habove j hj2 hjl2
        · rw [if_neg hv] at h
          cases h
          have hidx3 : s'.idx < s'.cache.length := by rw [r2, hlen3]; exact hidx1
          refine ⟨⟨hval, hidx3, ?_, ?_, ?_⟩, ?_⟩
          · rw [r5]; exact hbatch
          · rw [r6]; exact hsort
          · rw [r4, rns, r6]; exact hbound
          · have hk3 : scanKey s' = (s'.cache.getD s'.idx default).key := by
              simp [scanKey, hval]
            rw [hk3, getD_eq_get s'.cache s'.idx default hidx3]
            have hjl2 : s'.idx < s.cache.length := by rw [← hlen3]; exact hidx3
            rw [keysOf_ext_get r6 s'.idx hidx3 hjl2]
            have hj2 : s.idx < s'.idx := by rw [r2]; exact Nat.lt_succ_self _
            exact habove s'.idx hj2 hjl2

/-- A positioned scanner establishes the loop invariant with its own current
key as lower bound. -/
theorem loopInv_of_pos (s : Scanner) (hpos : ScanPosInv s) :
    LoopInv (some (scanKey s)) s := by
  obtain ⟨hvalid, hidx, hbatch, hsort, hbound⟩ := hpos
  have hkidx : scanKey s = (s.cache.get ⟨s.idx, hidx⟩).key := by
    simp only [scanKey, hvalid, if_pos]
    rw [getD_eq_get _ _ _ hidx]
  have hmem : scanKey s ∈ keysOf s.cache := by
    rw [hkidx]
    exact get_key_mem s.cache s.idx hidx
  refine ⟨hvalid, ⟨hbatch, hsort, hbound⟩, ?_, ?_⟩
  · intro he l hl
    obtain rfl : l = scanKey s := (Option.some.inj hl).symm
    exact hbound he _ hmem
  · intro j hj hjl l hl
    obtain rfl : l = scanKey s := (Option.some.inj hl).symm
    rw [hkidx]
    have h1 : s.idx < (keysOf s.cache).length := by rw [keysOf_length]; exact hidx
    have h2 : j < (keysOf s.cache).length := by rw [keysOf_length]; exact hjl
    have := List.pairwise_iff_get.mp hsort ⟨s.idx, h1⟩ ⟨j, h2⟩ hj
    rwa [keysOf_get s.cache s.idx hidx h1, keysOf_get s.cache j hjl h2] at this

/-- One successful `Next` from a positioned scanner that stays valid moves
to a positioned scanner with a strictly larger current key. -/
theorem next_mono (env : ScanEnv) (hwf : WFEnv env) (fuel : Nat) (s s' : Scanner)
    (hpos : ScanPosInv s) (h : next env fuel s = some (none, s'))
    (hval : s'.valid = true) :
    ScanPosInv s' ∧ scanKey s < scanKey s' := by
  rw [next, if_neg (by simp [hpos.1])] at h
  have := nextLoop_mono env hwf fuel 0 ⟨env.budget, []⟩ s (some (scanKey s)) none s'
    (loopInv_of_pos s hpos) h rfl hval
  exact ⟨this.1, this.2 (scanKey s) rfl⟩

/-- A `Next` call that returns an error leaves the scanner closed (every
error path calls `Close` first), provided the scanner was valid. -/
theorem next_err_closed (env : ScanEnv) (fuel : Nat) (s s' : Scanner) (e : Err)
    (hvalid : s.valid = true) (h : next env fuel s = some (some e, s')) :
    s'.valid = false := by
  rw [next, if_neg (by simp [hvalid])] at h
  exact (nextLoop_basic env fuel 0 ⟨env.budget, []⟩ s (some e) s' h).1 e rfl

/-- Running a positive number of successful `Next` calls requires the start
state to be valid. -/
theorem nexts_valid_of_pos (env : ScanEnv) (fuel : Nat) :
    ∀ (n : Nat) (s s' : Scanner), 0 < n → nexts env fuel s n = some s' →
      s.valid = true := by
  intro n s s' hn h
  cases n with
  | zero => cases hn
  | succ m =>
    rw [nexts] at h
    by_cases hv : s.valid = true
    · exact hv
    · have hv' : s.valid = false := by revert hv; cases s.valid <;> simp
      rw [next, if_pos hv'] at h
      simp only [] at h
      cases h

/-- Iteration `nexts` splits over addition. -/
theorem nexts_add (env : ScanEnv) (fuel : Nat) :
    ∀ (i m : Nat) (s : Scanner),
      nexts env fuel s (i + m) = (nexts env fuel s i).bind
        (fun t => nexts env fuel t m) := by
  intro i
  induction i with
  | zero => intro m s; simp [nexts]
  | succ i ih =>
    intro m s
    have hc : i + 1 + m = (i + m) + 1 := by omega
    rw [hc, nexts, nexts]
    cases hnx : next env fuel s with
    | none => simp
    | some r =>
      rcases r with ⟨r1, s1⟩
      cases r1 with
      | none => simp only []; exact ih m s1
      | some e => simp

/-- Chained monotonicity: after `n ≥ 1` successful `Next` calls from a
positioned scanner, a still-valid scanner is positioned strictly above the
start key. -/
theorem nexts_mono (env : ScanEnv) (hwf : WFEnv env) (fuel : Nat) :
    ∀ (n : Nat) (s s' : Scanner), ScanPosInv s →
      nexts env fuel s (n + 1) = some s' → s'.valid = true →
      ScanPosInv s' ∧ scanKey s < scanKey s' := by
  intro n
  induction n with
  | zero =>
    intro s s' hpos h hval
    rw [nexts] at h
    cases hnx : next env fuel s with
    | none => rw [hnx] at h; cases h
    | some r =>
      rcases r with ⟨r1, s1⟩
      rw [hnx] at h
      cases r1 with
      | some e => simp only [] at h; cases h
      | none =>
        simp only [nexts] at h
        cases h
        exact next_mono env hwf fuel s s' hpos hnx hval
  | succ m ih =>
    intro s s' hpos h hval
    rw [nexts] at h
    cases hnx : next env fuel s with
    | none => rw [hnx] at h; cases h
    | some r =>
      rcases r with ⟨r1, s1⟩
      rw [hnx] at h
      cases r1 with
      | some e => simp only [] at h; cases h
      | none =>
        simp only [] at h
        have hv1 : s1.valid = true :=
          nexts_valid_of_pos env fuel (m + 1) s1 s' (Nat.succ_pos m) h
        obtain ⟨hpos1, hlt1⟩ := next_mono env hwf fuel s s1 hpos hnx hv1
        obtain ⟨hpos', hlt2⟩ := ih s1 s' hpos1 h hval
        exact ⟨hpos', lt_trans hlt1 hlt2⟩

/-! ### Concrete environments and states used by counterexamples and witnesses -/

/-- A page whose second entry carries a conflict marker; the extracted lock
key `[0]` differs from the scanned key `[2]`. -/
def cexPairs : List KvPair := [⟨[1], [5], none⟩, ⟨[2], [7], some 0⟩]

/-- Environment for the C1 counterexample: one sorted page, but the lock
extracted for the marked entry carries key `[0]`, below the page keys. -/
def cexEnv : ScanEnv where
  att _ _ _ := .sent ⟨0, []⟩ (.ok cexPairs)
  checkVisible := none
  extract _ := .ok ⟨[0]⟩
  pointGet _ := .ok [9]
  budget := 3

/-- Freshly constructed scanner state (start key `[]`, batch size 5). -/
def cexS0 : Scanner := initScanner [] 5

/-- The state after one successful `Next` on `cexS0` under `cexEnv`. -/
def cexS1 : Scanner :=
  ⟨5, true, [⟨[1], [5], none⟩, ⟨[0], [7], some 0⟩], 0, [], true⟩

/-- The state after two successful `Next` calls on `cexS0` under `cexEnv`. -/
def cexS2 : Scanner :=
  ⟨5, true, [⟨[1], [5], none⟩, ⟨[0], [9], none⟩], 1, [], true⟩

/-- Claim C1 as stated is false on the code: under `cexEnv` the first `Next`
returns key `[1]` and the second returns key `[0]`, because the fetch loop
overwrote the cached key of the conflict-marked entry with the extracted
lock key `[0]`.  The keys returned by successive successful advances are not
strictly increasing. -/
theorem C1_counterexample :
    nexts cexEnv 10 cexS0 1 = some cexS1 ∧
    nexts cexEnv 10 cexS0 2 = some cexS2 ∧
    cexS1.valid = true ∧ cexS2.valid = true ∧
    scanKey cexS1 = [1] ∧ scanKey cexS2 = [0] ∧
    ¬ scanKey cexS1 < scanKey cexS2 ∧ scanKey cexS2 < scanKey cexS1 := by
  refine ⟨by decide, by decide, rfl, rfl, by decide, by decide, by decide, by decide⟩

/-- Claim C1 (amended): provided the environment is well formed — every scan
response is strictly sorted, lies in the requested range and inside the
owning region, and the lock extracted for every conflict-marked entry
carries the key of that entry itself (§6 store contract plus the §9
condition; the counterexample shows the claim fails without the latter) —
the keys returned by successive successful advances of one Scanner are
strictly increasing, hence no key is ever returned twice. -/
theorem C1_keys_strictly_increasing (env : ScanEnv) (fuel i j : Nat)
    (s si sj : Scanner) (hwf : WFEnv env) (hpos : ScanPosInv s) (hij : i < j)
    (hi : nexts env fuel s i = some si) (hj : nexts env fuel s j = some sj)
    (hvj : sj.valid = true) :
    scanKey si < scanKey sj ∧ scanKey si ≠ scanKey sj := by
  have hsum : i + (j - i) = j := by omega
  have hsplit := nexts_add env fuel i (j - i) s
  rw [hsum, hj, hi] at hsplit
  have hrun : nexts env fuel si (j - i) = some sj := by
    simp only [Option.bind] at hsplit
    exact hsplit.symm
  have hd : j - i = (j - i - 1) + 1 := by omega
  rw [hd] at hrun
  have hvi : si.valid = true :=
    nexts_valid_of_pos env fuel ((j - i - 1) + 1) si sj (Nat.succ_pos _) hrun
  have hposi : ScanPosInv si := by
    cases i with
    | zero =>
      have : si = s := by simpa [nexts] using hi.symm
      rw [this]
      exact hpos
    | succ m =>
      exact (nexts_mono env hwf fuel m s si hpos hi hvi).1
  have := nexts_mono env hwf fuel (j - i - 1) si sj hposi hrun hvj
  exact ⟨this.2, ne_of_lt this.2⟩

/-- Environment for the C1 witness: a two-key store answering any start key
with the keys at or after it; no conflict markers. -/
def w1pairs : List KvPair := [⟨[1], [5], none⟩, ⟨[2], [6], none⟩]

def w1env : ScanEnv where
  att _ _ sk := .sent ⟨0, []⟩ (.ok (w1pairs.filter (fun p => decide (sk ≤ p.key))))
  checkVisible := none
  extract _ := .ok ⟨[]⟩
  pointGet _ := .ok [1]
  budget := 2

theorem w1env_wf : WFEnv w1env := by
  intro fi ai sk loc pairs h
  simp only [w1env] at h
  cases h
  constructor
  · refine ⟨?_, ?_, ?_⟩
    · have hp : List.Pairwise (fun p q : KvPair => p.key < q.key) w1pairs := by decide
      exact List.pairwise_map.mpr (hp.filter _)
    · intro k hk
      obtain ⟨p, hp, rfl⟩ := List.mem_map.mp hk
      have := (List.mem_filter.mp hp).2
      exact of_decide_eq_true this
    · intro hne
      exact absurd rfl hne
  · intro p hp ke l herr _
    have hmem := (List.mem_filter.mp hp).1
    have : p.error = none := by
      rcases List.mem_cons.mp hmem with rfl | h2
      · rfl
      · rcases List.mem_cons.mp h2 with rfl | h3
        · rfl
        · cases h3
    rw [this] at herr
    cases herr

/-- Positioned start state for the C1 witness. -/
def w1s0 : Scanner := ⟨2, true, [⟨[0], [3], none⟩], 0, [1], false⟩

/-- State after one successful `Next` on `w1s0` under `w1env`. -/
def w1s1 : Scanner := ⟨2, true, w1pairs, 0, [2, 0], false⟩

theorem C1_keys_strictly_increasing_witness :
    scanKey w1s0 < scanKey w1s1 ∧ scanKey w1s0 ≠ scanKey w1s1 :=
  C1_keys_strictly_increasing w1env 10 0 1 w1s0 w1s0 w1s1 w1env_wf
    ⟨rfl, by decide, by decide, by decide, fun _ => by decide⟩
    (by decide) rfl (by decide) rfl

/-! ### Remaining claim theorems -/

theorem getDataLoop_unfold (env : ScanEnv) (fi : Nat) (s : Scanner)
    (a b : Nat) (cs : List BoCat) :
    getDataLoop env fi s a b cs =
      match env.att fi a s.nextStartKey with
      | .locateFail e => (some e, s, ⟨b, cs⟩)
      | .sent loc out =>
        match out with
        | .transportErr e => (some e, s, ⟨b, cs⟩)
        | .regionErrFail e => (some e, s, ⟨b, cs⟩)
        | .regionErr =>
          match b with
          | 0 => (some .budgetExhausted, s, ⟨0, cs⟩)
          | b' + 1 => getDataLoop env fi s (a + 1) b' (cs ++ [.regionMiss])
        | .bodyMissing => (some .bodyMissing, s, ⟨b, cs⟩)
        | .ok pairs =>
          match env.checkVisible with
          | some e => (some e, s, ⟨b, cs⟩)
          | none =>
            match rewritePairs env.extract pairs with
            | .error e => (some e, s, ⟨b, cs⟩)
            | .ok qs => (none, installPage s loc qs, ⟨b, cs⟩) := by
  cases b <;> rw [getDataLoop]

theorem installPage_cache (s : Scanner) (loc : KeyLocation) (qs : List KvPair) :
    (installPage s loc qs).cache = qs := by
  by_cases h : qs.length < s.batchSize <;> simp [installPage, h]

theorem getD_set_self_eq {α : Type} (l : List α) (i : Nat) (d a : α)
    (h : i < l.length) : (l.set i a).getD i d = a := by
  rw [getD_eq_get _ _ _ (by rw [List.length_set]; exact h)]
  rw [List.get_eq_getElem, List.getElem_set]
  simp

/-- Claim C2: during a page fetch, every returned entry carrying a per-key
conflict marker has a lock descriptor extracted from the marker and its key
overwritten with the lock key before the page is installed in the cache;
unmarked entries are installed unchanged, and an extraction failure fails
the whole fetch with the scanner state untouched. -/
theorem C2_conflict_key_rewrite (env : ScanEnv) (fi : Nat) (s : Scanner)
    (bo : Backoffer) (loc : KeyLocation) (pairs : List KvPair)
    (hatt : env.att fi 0 s.nextStartKey = .sent loc (.ok pairs))
    (hvis : env.checkVisible = none) :
    (∀ e, rewritePairs env.extract pairs = .error e →
       getData env fi s bo = (some e, s, bo)) ∧
    (∀ qs, rewritePairs env.extract pairs = .ok qs →
       getData env fi s bo = (none, installPage s loc qs, bo) ∧
       (installPage s loc qs).cache = qs ∧
       qs.length = pairs.length ∧
       ∀ i (hi : i < pairs.length) (hq : i < qs.length),
         (match (pairs.get ⟨i, hi⟩).error with
          | some ke => ∃ l, env.extract ke = Except.ok l ∧
              qs.get ⟨i, hq⟩ = {pairs.get ⟨i, hi⟩ with key := l.key}
          | none => qs.get ⟨i, hq⟩ = pairs.get ⟨i, hi⟩)) := by
  constructor
  · intro e hrw
    rw [getData, getDataLoop_unfold, hatt]
    simp only []
    rw [hvis]
    simp only []
    rw [hrw]
  · intro qs hrw
    refine ⟨?_, installPage_cache s loc qs, (rewritePairs_ok_spec env.extract pairs qs hrw).1,
      (rewritePairs_ok_spec env.extract pairs qs hrw).2⟩
    rw [getData, getDataLoop_unfold, hatt]
    simp only []
    rw [hvis]
    simp only []
    rw [hrw]

/-- Claim C3: after a successful page fetch, a short page (fewer entries than
the batch size) sets the continuation key to the end boundary of the owning
region, and marks the keyspace exhausted exactly when that boundary is
empty; a full page sets the continuation key to the last cached key with a
zero byte appended, leaving the exhausted flag clear.  The hypothesis
`s.eof = false` reflects that `Next` only fetches while not exhausted. -/
theorem C3_continuation (env : ScanEnv) (fi : Nat) (s : Scanner) (bo : Backoffer)
    (loc : KeyLocation) (pairs qs : List KvPair)
    (hatt : env.att fi 0 s.nextStartKey = .sent loc (.ok pairs))
    (hvis : env.checkVisible = none)
    (hrw : rewritePairs env.extract pairs = .ok qs)
    (heof : s.eof = false) :
    getData env fi s bo = (none, installPage s loc qs, bo) ∧
    (qs.length < s.batchSize →
      (installPage s loc qs).nextStartKey = loc.endKey ∧
      ((installPage s loc qs).eof = true ↔ loc.endKey = [])) ∧
    (s.batchSize ≤ qs.length →
      (installPage s loc qs).nextStartKey = (qs.getLastD default).key ++ [0] ∧
      (installPage s loc qs).eof = false) := by
  refine ⟨?_, ?_, ?_⟩
  · rw [getData, getDataLoop_unfold, hatt]
    simp only []
    rw [hvis]
    simp only []
    rw [hrw]
  · intro hlt
    have e1 : installPage s loc qs =
        {s with cache := qs, idx := 0, nextStartKey := loc.endKey,
                eof := if loc.endKey = [] then true else s.eof} := by
      simp [installPage, hlt]
    rw [e1]
    refine ⟨rfl, ?_⟩
    by_cases hek : loc.endKey = [] <;> simp [hek, heof]
  · intro hge
    have hnlt : ¬ qs.length < s.batchSize := Nat.not_lt.mpr hge
    have e2 : installPage s loc qs =
        {s with cache := qs, idx := 0,
                nextStartKey := (qs.getLastD default).key ++ [0]} := by
      simp [installPage, hnlt]
    rw [e2]
    exact ⟨rfl, heof⟩

/-- Claim C4: a key whose resolved value is empty is never returned: a
successful `Next` either leaves the scanner invalid or positions it on an
entry with a non-empty value. -/
theorem C4_tombstone_elision (env : ScanEnv) (fuel : Nat) (s s' : Scanner)
    (hvalid : s.valid = true) (h : next env fuel s = some (none, s')) :
    s'.valid = false ∨ scanValue s' ≠ [] := by
  rw [next, if_neg (by simp [hvalid])] at h
  have := (nextLoop_basic env fuel 0 ⟨env.budget, []⟩ s none s' h).2 rfl
  refine this.imp_right (fun hl he => hl ?_)
  rw [he]
  rfl

/-- Claim C5: resolving a conflict-marked page entry point-reads its key via
the snapshot at the fixed read version, overwrites the entry value in place
with the point-read result and clears the marker — so the resolved value is
exactly what a direct point-read of the key yields — while a point-read
failure is propagated unchanged with the scanner state untouched. -/
theorem C5_conflict_resolution (env : ScanEnv) (s : Scanner) (ke : Nat)
    (hidx : s.idx < s.cache.length)
    (hke : (s.cache.getD s.idx default).error = some ke) :
    (∀ e, env.pointGet (s.cache.getD s.idx default).key = .error e →
       resolveCurrentLock env s = (some e, s)) ∧
    (∀ v, env.pointGet (s.cache.getD s.idx default).key = .ok v →
       ∃ s', resolveCurrentLock env s = (none, s') ∧
         (s'.cache.getD s.idx default).value = v ∧
         (s'.cache.getD s.idx default).error = none ∧
         (s'.cache.getD s.idx default).key = (s.cache.getD s.idx default).key ∧
         s'.idx = s.idx ∧ s'.valid = s.valid ∧
         keysOf s'.cache = keysOf s.cache) := by
  have hne : ¬ (s.cache.getD s.idx default).error = none := by
    rw [hke]
    simp
  constructor
  · intro e hpg
    simp only [resolveCurrentLock]
    rw [if_neg hne, hpg]
  · intro v hpg
    have heq : resolveCurrentLock env s = (none, {s with cache := s.cache.set s.idx {(s.cache.getD s.idx default) with error := none, value := v}}) := by
      simp only [resolveCurrentLock]
      rw [if_neg hne, hpg]
    refine ⟨_, heq, ?_, ?_, ?_, rfl, rfl,
      (resolveCurrentLock_none env s _ heq).2.2.2.2.2⟩
    · show ((s.cache.set s.idx {(s.cache.getD s.idx default) with error := none, value := v}).getD s.idx default).value = v
      rw [getD_set_self_eq _ _ _ _ hidx]
    · show ((s.cache.set s.idx {(s.cache.getD s.idx default) with error := none, value := v}).getD s.idx default).error = none
      rw [getD_set_self_eq _ _ _ _ hidx]
    · show ((s.cache.set s.idx {(s.cache.getD s.idx default) with error := none, value := v}).getD s.idx default).key = (s.cache.getD s.idx default).key
      rw [getD_set_self_eq _ _ _ _ hidx]

/-- Skipping `n` consecutive routing errors: each one consumes one backoff
unit tagged `regionMiss` and the loop retries at the next attempt (with the
region re-located), provided the budget allows it. -/
theorem getDataLoop_skip (env : ScanEnv) (fi : Nat) (s : Scanner) :
    ∀ (n a b : Nat) (cs : List BoCat) (locs : Nat → KeyLocation),
      (∀ j, j < n → env.att fi (a + j) s.nextStartKey = .sent (locs j) .regionErr) →
      n ≤ b →
      getDataLoop env fi s a b cs =
        getDataLoop env fi s (a + n) (b - n)
          (cs ++ List.replicate n .regionMiss) := by
  intro n
  induction n with
  | zero => intro a b cs locs _ _; simp
  | succ n ih =>
    intro a b cs locs hreg hnb
    cases b with
    | zero => omega
    | succ b' =>
      have h0 : env.att fi a s.nextStartKey = .sent (locs 0) .regionErr := by
        simpa using hreg 0 (Nat.succ_pos n)
      rw [getDataLoop, h0]
      simp only []
      have hih := ih (a + 1) b' (cs ++ [.regionMiss]) (fun j => locs (j + 1))
        (fun j hj => by
          have hr := hreg (j + 1) (Nat.succ_lt_succ hj)
          rwa [show a + (j + 1) = a + 1 + j by omega] at hr)
        (Nat.le_of_succ_le_succ hnb)
      rw [hih, show a + 1 + n = a + (n + 1) by omega,
        show b' - n = b' + 1 - (n + 1) by omega,
        show (cs ++ [BoCat.regionMiss]) ++ List.replicate n BoCat.regionMiss
          = cs ++ List.replicate (n + 1) BoCat.regionMiss by
            rw [List.append_assoc]
            simp [List.replicate_succ]]

/-- Claim C6: a fetch seeing `n` routing errors within the budget consumes
exactly `n` backoff units, all tagged with the routing-miss category, and
then produces the same installed page as an error-free fetch of the valid
response; `n = budget + 1` routing errors exhaust the budget and yield the
budget-exhausted failure with the state unchanged (and any `Next` that
receives a fetch failure closes the scanner); a transport failure at the
first attempt is propagated immediately, without consuming any backoff. -/
theorem C6_routing_miss_recovery (env : ScanEnv) (fi n b : Nat) (cs : List BoCat)
    (s : Scanner) (locs : Nat → KeyLocation)
    (hreg : ∀ j, j < n → env.att fi j s.nextStartKey = .sent (locs j) .regionErr) :
    (∀ loc pairs qs, n ≤ b →
       env.att fi n s.nextStartKey = .sent loc (.ok pairs) →
       env.checkVisible = none →
       rewritePairs env.extract pairs = .ok qs →
       getDataLoop env fi s 0 b cs =
         (none, installPage s loc qs,
           ⟨b - n, cs ++ List.replicate n .regionMiss⟩)) ∧
    (n = b + 1 →
       getDataLoop env fi s 0 b cs =
         (some .budgetExhausted, s, ⟨0, cs ++ List.replicate b .regionMiss⟩)) ∧
    (∀ loc e bo, env.att fi 0 s.nextStartKey = .sent loc (.transportErr e) →
       getData env fi s bo = (some e, s, bo)) ∧
    (∀ fuel e s', s.valid = true → next env fuel s = some (some e, s') →
       s'.valid = false) := by
  refine ⟨?_, ?_, ?_, ?_⟩
  · intro loc pairs qs hnb hatt hvis hrw
    have hskip := getDataLoop_skip env fi s n 0 b cs locs
      (fun j hj => by simpa using hreg j hj) hnb
    rw [hskip, Nat.zero_add, getDataLoop_unfold, hatt]
    simp only []
    rw [hvis]
    simp only []
    rw [hrw]
  · intro hn
    have hskip := getDataLoop_skip env fi s b 0 b cs locs
      (fun j hj => by simpa using hreg j (by omega)) (le_refl b)
    rw [hskip, Nat.zero_add, show b - b = 0 from Nat.sub_self b, getDataLoop, hreg b (by omega)]
  · intro loc e bo hatt
    rw [getData, getDataLoop_unfold, hatt]
  · intro fuel e s' hvalid h
    exact next_err_closed env fuel s s' e hvalid h

/-- Claim C7: construction primes the scanner with one advance; a not-found
failure of that advance still yields the scanner with no error (and the
advance has closed it, so its first `Valid` is false); any other failure of
the advance is returned to the caller, and it too leaves the scanner
closed. -/
theorem C7_construction (env : ScanEnv) (fuel : Nat) (startKey : Key)
    (batchSize : Nat) (r : Option Err) (s1 : Scanner)
    (h : next env fuel (initScanner startKey batchSize) = some (r, s1)) :
    newScanner env fuel startKey batchSize =
      some (s1, if r = some Err.notFound then none else r) ∧
    (∀ e, r = some e → s1.valid = false) := by
  constructor
  · rw [newScanner, h]
    cases r with
    | none => simp
    | some e =>
      by_cases he : e = Err.notFound
      · subst he
        simp
      · simp [he]
  · intro e hre
    rw [hre] at h
    exact next_err_closed env fuel (initScanner startKey batchSize) s1 e rfl h

/-- Claim C8: a requested page size of 0 or 1 is normalized to the default
constant before anything else, so construction behaves identically to
construction with the default page size. -/
theorem C8_page_size_normalization (env : ScanEnv) (fuel : Nat) (startKey : Key) :
    newScanner env fuel startKey 0 = newScanner env fuel startKey scanBatchSize ∧
    newScanner env fuel startKey 1 = newScanner env fuel startKey scanBatchSize := by
  constructor <;> rfl

/-- Claim C9: once `Valid` is false it stays false: `Next` on an invalid
scanner fails with the iterator-invalid error and returns the state
unchanged (still invalid), `Close` keeps it invalid, and `Key` and `Value`
return the empty byte string while invalid. -/
theorem C9_exhaustion_terminal (env : ScanEnv) (fuel : Nat) (s : Scanner)
    (h : s.valid = false) :
    next env fuel s = some (some Err.scannerInvalid, s) ∧
    scanKey s = [] ∧ scanValue s = [] ∧ (close s).valid = false := by
  refine ⟨?_, ?_, ?_, rfl⟩
  · rw [next, if_pos h]
  · simp [scanKey, h]
  · simp [scanValue, h]

/-- Claim C10: a failing page fetch is atomic — the cache, cursor,
continuation key and exhausted flag are all unchanged from before the
call. -/
theorem C10_fetch_atomicity (env : ScanEnv) (fi : Nat) (s : Scanner)
    (bo : Backoffer) (e : Err) (s' : Scanner) (bo' : Backoffer)
    (h : getData env fi s bo = (some e, s', bo')) :
    s'.cache = s.cache ∧ s'.idx = s.idx ∧ s'.nextStartKey = s.nextStartKey ∧
    s'.eof = s.eof ∧ s' = s := by
  rw [getData] at h
  have heq := getDataLoop_err env fi s bo.budget 0 bo.consumed e s' bo' h
  exact ⟨by rw [heq], by rw [heq], by rw [heq], by rw [heq], heq⟩

/-! ### Witnesses -/

def w2ext : Nat → Except Err Lock :=
  fun ke => if ke = 5 then .ok ⟨[8]⟩ else .error (.external 7)

def w2env : ScanEnv :=
  ⟨fun _ _ _ => .sent ⟨0, []⟩ (.ok [⟨[1], [2], some 5⟩]), none, w2ext,
    fun _ => .ok [], 1⟩

def w2envE : ScanEnv :=
  ⟨fun _ _ _ => .sent ⟨0, []⟩ (.ok [⟨[1], [2], some 6⟩]), none, w2ext,
    fun _ => .ok [], 1⟩

def w2s : Scanner := ⟨3, true, [], 0, [0], false⟩

theorem C2_conflict_key_rewrite_witness :
    getData w2envE 0 w2s ⟨1, []⟩ = (some (Err.external 7), w2s, ⟨1, []⟩) ∧
    getData w2env 0 w2s ⟨1, []⟩ =
      (none, installPage w2s ⟨0, []⟩ [⟨[8], [2], some 5⟩], ⟨1, []⟩) ∧
    (installPage w2s ⟨0, []⟩ [⟨[8], [2], some 5⟩]).cache = [⟨[8], [2], some 5⟩] := by
  refine ⟨?_, ?_, ?_⟩
  · exact (C2_conflict_key_rewrite w2envE 0 w2s ⟨1, []⟩ ⟨0, []⟩
      [⟨[1], [2], some 6⟩] rfl rfl).1 (Err.external 7) rfl
  · exact ((C2_conflict_key_rewrite w2env 0 w2s ⟨1, []⟩ ⟨0, []⟩
      [⟨[1], [2], some 5⟩] rfl rfl).2 [⟨[8], [2], some 5⟩] rfl).1
  · exact ((C2_conflict_key_rewrite w2env 0 w2s ⟨1, []⟩ ⟨0, []⟩
      [⟨[1], [2], some 5⟩] rfl rfl).2 [⟨[8], [2], some 5⟩] rfl).2.1

def w3pairs : List KvPair := [⟨[1], [4], none⟩]

def w3loc : KeyLocation := ⟨1, [9]⟩

def w3env : ScanEnv :=
  ⟨fun _ _ _ => .sent w3loc (.ok w3pairs), none, fun _ => .error (.external 0),
    fun _ => .ok [], 1⟩

def w3s : Scanner := ⟨2, true, [], 0, [0], false⟩

theorem C3_continuation_witness :
    getData w3env 0 w3s ⟨1, []⟩ = (none, installPage w3s w3loc w3pairs, ⟨1, []⟩) ∧
    (installPage w3s w3loc w3pairs).nextStartKey = [9] ∧
    ((installPage w3s w3loc w3pairs).eof = true ↔ ([9] : Key) = []) := by
  have H := C3_continuation w3env 0 w3s ⟨1, []⟩ w3loc w3pairs w3pairs rfl rfl rfl rfl
  exact ⟨H.1, (H.2.1 (by decide)).1, (H.2.1 (by decide)).2⟩

def w4s : Scanner :=
  ⟨5, true, [⟨[1], [7], none⟩, ⟨[2], [], none⟩, ⟨[3], [8], none⟩], 0, [], true⟩

def w4sAfter : Scanner :=
  ⟨5, true, [⟨[1], [7], none⟩, ⟨[2], [], none⟩, ⟨[3], [8], none⟩], 2, [], true⟩

theorem C4_tombstone_elision_witness :
    w4sAfter.valid = false ∨ scanValue w4sAfter ≠ [] :=
  C4_tombstone_elision w3env 10 w4s w4sAfter rfl (by decide)

def w5env : ScanEnv :=
  ⟨fun _ _ _ => .locateFail (.external 0), none, fun _ => .error (.external 0),
    fun k => if k = [2] then .ok [9] else .error .notFound, 1⟩

def w5s : Scanner := ⟨4, true, [⟨[2], [7], some 4⟩], 0, [5], false⟩

theorem C5_conflict_resolution_witness :
    ∃ s', resolveCurrentLock w5env w5s = (none, s') ∧
      (s'.cache.getD w5s.idx default).value = [9] ∧
      (s'.cache.getD w5s.idx default).error = none ∧
      (s'.cache.getD w5s.idx default).key = (w5s.cache.getD w5s.idx default).key ∧
      s'.idx = w5s.idx ∧ s'.valid = w5s.valid ∧
      keysOf s'.cache = keysOf w5s.cache :=
  (C5_conflict_resolution w5env w5s 4 (by decide) rfl).2 [9] rfl

def w6env : ScanEnv :=
  ⟨fun _ j _ => if j < 2 then .sent ⟨j, []⟩ .regionErr
    else .sent ⟨7, []⟩ (.ok [⟨[3], [4], none⟩]), none,
    fun _ => .error (.external 0), fun _ => .ok [], 5⟩

def w6s : Scanner := ⟨5, true, [], 0, [0], false⟩

def w6locs : Nat → KeyLocation := fun j => ⟨j, []⟩

theorem C6_routing_miss_recovery_witness :
    getDataLoop w6env 0 w6s 0 3 [] =
      (none, installPage w6s ⟨7, []⟩ [⟨[3], [4], none⟩],
        ⟨1, [BoCat.regionMiss, BoCat.regionMiss]⟩) :=
  (C6_routing_miss_recovery w6env 0 2 3 [] w6s w6locs
    (fun j hj => by
      simp only [w6env, w6locs]
      rw [if_pos hj])).1
    ⟨7, []⟩ [⟨[3], [4], none⟩] [⟨[3], [4], none⟩] (by decide) rfl rfl rfl

def w7env : ScanEnv :=
  ⟨fun _ _ _ => .sent ⟨0, []⟩ (.ok [⟨[1], [], some 0⟩]), none,
    fun _ => .ok ⟨[1]⟩, fun _ => .error .notFound, 2⟩

def w7s1 : Scanner := ⟨256, false, [⟨[1], [], some 0⟩], 0, [], true⟩

theorem C7_construction_witness :
    newScanner w7env 10 [] 0 = some (w7s1, none) ∧ w7s1.valid = false := by
  have H := C7_construction w7env 10 [] 0 (some Err.notFound) w7s1 (by decide)
  exact ⟨by simpa using H.1, H.2 Err.notFound rfl⟩

def w9s : Scanner := ⟨5, false, [⟨[1], [2], none⟩], 0, [3], true⟩

theorem C9_exhaustion_terminal_witness :
    next w3env 3 w9s = some (some Err.scannerInvalid, w9s) ∧
    scanKey w9s = [] ∧ scanValue w9s = [] ∧ (close w9s).valid = false :=
  C9_exhaustion_terminal w3env 3 w9s rfl

def w10env : ScanEnv :=
  ⟨fun _ _ _ => .sent ⟨0, [2]⟩ .bodyMissing, none, fun _ => .error (.external 0),
    fun _ => .ok [], 2⟩

def w10s : Scanner := ⟨4, true, [⟨[1], [1], none⟩], 0, [5], false⟩

def w10sAfter : Scanner := ⟨4, true, [⟨[1], [1], none⟩], 0, [5], false⟩

theorem C10_fetch_atomicity_witness :
    w10sAfter.cache = w10s.cache ∧ w10sAfter.idx = w10s.idx ∧
    w10sAfter.nextStartKey = w10s.nextStartKey ∧ w10sAfter.eof = w10s.eof ∧
    w10sAfter = w10s :=
  C10_fetch_atomicity w10env 0 w10s ⟨2, []⟩ Err.bodyMissing w10sAfter ⟨2, []⟩
    (by decide)

end Scan
